import Mathlib

/-!
# Verification of the amqprs AMQP 0-9-1 client core

Shallow embedding of the repository's `amqp_serde` type codec
(`src/amqp_serde/src/types.rs`) and of the per-channel dispatcher
(`src/amqprs/src/api/channel/dispatcher.rs`), together with theorems
settling the specification claims about them.

Machine integers are modelled as `Nat`/`Int`; Rust strings are modelled
as their UTF-8 byte sequences (`List Nat`); `HashMap` is modelled as an
association list; a Rust `panic!`/`unwrap` failure is modelled as a
distinguished result (`Option.none` or a `panic` constructor).
-/

namespace Amqprs

/-! ## Type codec (`amqp_serde/src/types.rs`) -/

/-- `u32::MAX`, the largest value of the `LongUint` wire type. -/
def longUintMax : Nat := 2 ^ 32 - 1

/-- `u8::MAX`, the largest value of the `Octect` wire type. -/
def octectMax : Nat := 255

/-- `ShortStr(u8, String)` from `types.rs`: the stored `u8` length and the
string's UTF-8 bytes. -/
structure ShortStrT where
  storedLen : Nat
  data : List Nat
  deriving Repr, DecidableEq

/-- Error taxonomy of the spec (section 7) for the codec constructors.
The source returns `TryFromIntError` from the failed `u8`/`u32`
conversion; the spec names this failure `ShortStringOverflow` for short
strings and `TableLengthOverflow` for tables/long payloads. -/
inductive CodecError where
  | shortStringOverflow
  | tableLengthOverflow
  deriving Repr, DecidableEq

/-- `impl TryFrom<String> for ShortStr` (types.rs lines 75-82):
`u8::try_from(s.len())` succeeds exactly when the UTF-8 byte length fits
in `u8`, and the resulting `ShortStr` stores that length. -/
def ShortStrT.tryFrom (s : List Nat) : Except CodecError ShortStrT :=
  if s.length ≤ octectMax then .ok ⟨s.length, s⟩ else .error .shortStringOverflow

/-- `DecimalValue(Octect, LongInt)`. -/
structure DecimalValueT where
  scale : Nat
  value : Int
  deriving Repr, DecidableEq

/-- `FieldValue` (types.rs lines 259-280), the RabbitMQ-flavoured tagged
value.  Variants that carry a length-prefixed payload (`S`, `A`, `x`)
store the `u32` prefix recorded at construction alongside the payload,
exactly as the Rust structs `LongStr(u32, String)`,
`FieldArray(LongUint, Vec<FieldValue>)`, `ByteArray(LongUint, Vec<u8>)`
do.  `F` carries the field table's entries (the `HashMap` modelled as an
association list of `(ShortStr, FieldValue)`).  Floats (`f`, `d`) carry
their bit patterns as `Nat`, which suffices for size computations. -/
inductive FieldValue where
  | t (v : Bool)
  | b (v : Int)
  | B (v : Nat)
  | s (v : Int)
  | u (v : Nat)
  | I (v : Int)
  | i (v : Nat)
  | l (v : Int)
  | f (bits : Nat)
  | d (bits : Nat)
  | D (v : DecimalValueT)
  | S (storedLen : Nat) (data : List Nat)
  | A (storedLen : Nat) (values : List FieldValue)
  | T (v : Nat)
  | F (table : List (ShortStrT × FieldValue))
  | V
  | x (storedLen : Nat) (bytes : List Nat)

/-- `FieldValue::TAG_SIZE`. -/
def tagSize : Nat := 1

mutual

/-- `FieldValue::len` (types.rs lines 285-305).  Fixed sizes per tag via
`size_of`; `S`/`A`/`x` read their stored `u32` prefix and add
`size_of_val(&v.0) = 4`; `D` is `1 + 4`; `F` is
`TAG_SIZE + v.len_in_bytes()`, i.e. `1 +` the table's byte count
(`len_in_bytes` delegates to `bytes_of_map`; its overflow panic is
modelled separately by `FieldTable.len_in_bytes`). -/
def FieldValue.len : FieldValue → Nat
  | .V => 0
  | .t _ => 1
  | .b _ => 1
  | .B _ => 1
  | .s _ => 2
  | .u _ => 2
  | .I _ => 4
  | .i _ => 4
  | .l _ => 8
  | .f _ => 4
  | .d _ => 8
  | .T _ => 8
  | .D _ => 1 + 4
  | .S storedLen _ => 4 + storedLen
  | .A storedLen _ => 4 + storedLen
  | .F table => tagSize + bytesOfMap table
  | .x storedLen _ => 4 + storedLen

/-- `bytes_of_map` (types.rs lines 412-419): fold over the entries adding
`size_of_val(&k.0) (= 1) + k.0 + TAG_SIZE + v.len()` for each entry. -/
def bytesOfMap : List (ShortStrT × FieldValue) → Nat
  | [] => 0
  | (k, v) :: rest => 1 + k.storedLen + tagSize + FieldValue.len v + bytesOfMap rest

end

/-- `FieldTable` is a wrapper around the hash map; we identify it with
its entry list. -/
abbrev FieldTable := List (ShortStrT × FieldValue)

/-- `FieldTable::len_in_bytes` (types.rs lines 441-447): computes
`bytes_of_map` and `panic!`s (modelled as `none`) when the result
exceeds `u32::MAX`. -/
def FieldTable.len_in_bytes (t : FieldTable) : Option Nat :=
  let len := bytesOfMap t
  if len > longUintMax then none else some len

/-- `impl TryFrom<HashMap<..>> for FieldTable` (types.rs lines 423-429):
`LongUint::try_from(bytes_of_map(&v)).map(|_| Self(v))`. -/
def FieldTable.tryFrom (t : FieldTable) : Except CodecError FieldTable :=
  if bytesOfMap t ≤ longUintMax then .ok t else .error .tableLengthOverflow

/-- `FieldArray(LongUint, Vec<FieldValue>)`. -/
structure FieldArrayT where
  storedLen : Nat
  values : List FieldValue

/-- The fold inside `FieldArray::try_from` (types.rs lines 211-217):
`values.iter().fold(0, |acc, v| acc + FieldValue::TAG_SIZE + v.len())`. -/
def arrayBytes (values : List FieldValue) : Nat :=
  values.foldl (fun acc v => acc + tagSize + v.len) 0

/-- `impl TryFrom<Vec<FieldValue>> for FieldArray` (types.rs lines
208-218): compute the total byte count and record it as the `u32`
prefix, failing when it does not fit. -/
def FieldArrayT.tryFrom (values : List FieldValue) : Except CodecError FieldArrayT :=
  if arrayBytes values ≤ longUintMax then .ok ⟨arrayBytes values, values⟩
  else .error .tableLengthOverflow

/-- The per-tag encoded-size table exactly as the specification states it
(spec section 4.1): fixed sizes per scalar tag; `S`/`x` = 4 + length;
`A`/`F` = 4 + inner payload byte length; `D` = 1 + 4; `V` = 0.  Written
from the spec's words, to be compared with the source's
`FieldValue.len`. -/
def encodedSizeSpec : FieldValue → Nat
  | .V => 0
  | .t _ => 1
  | .b _ => 1
  | .B _ => 1
  | .s _ => 2
  | .u _ => 2
  | .I _ => 4
  | .i _ => 4
  | .l _ => 8
  | .f _ => 4
  | .d _ => 8
  | .T _ => 8
  | .D _ => 1 + 4
  | .S storedLen _ => 4 + storedLen
  | .A storedLen _ => 4 + storedLen
  | .F table => 4 + bytesOfMap table
  | .x storedLen _ => 4 + storedLen

/-- The array payload size formula as the claim states it: the sum over
elements of `TAG_SIZE (1) + encoded_size(value)`. -/
def arrayPayloadFormula (values : List FieldValue) : Nat :=
  (values.map (fun v => tagSize + v.len)).sum

/-- The table payload size formula as the claim states it: the sum over
entries of `1 + name_len + 1 + encoded_size(value)`. -/
def tablePayloadFormula (t : FieldTable) : Nat :=
  (t.map (fun kv => 1 + kv.1.storedLen + 1 + kv.2.len)).sum

/-! ## Association-list model of `HashMap`

`HashMap::insert` replaces the value of an existing key; lookup and
remove are as usual.  Iteration order is irrelevant to the dispatcher
claims (the maps are only read pointwise). -/

/-- `HashMap` lookup. -/
def lookupA {κ α : Type} [DecidableEq κ] : List (κ × α) → κ → Option α
  | [], _ => none
  | (k, v) :: rest, key => if k = key then some v else lookupA rest key

/-- `HashMap::insert`: replace the binding of an existing key, otherwise
add one. -/
def insertA {κ α : Type} [DecidableEq κ] : List (κ × α) → κ → α → List (κ × α)
  | [], key, value => [(key, value)]
  | (k, v) :: rest, key, value =>
    if k = key then (key, value) :: rest else (k, v) :: insertA rest key value

/-- `HashMap::remove`. -/
def removeA {κ α : Type} [DecidableEq κ] : List (κ × α) → κ → List (κ × α)
  | [], _ => []
  | (k, v) :: rest, key => if k = key then rest else (k, v) :: removeA rest key

/-! ## Channel dispatcher (`amqprs/src/api/channel/dispatcher.rs`)

The dispatcher is a single task holding all per-channel mutable state;
we embed it as a step function on an explicit state record, driven by
one inbound event (management command or inbound frame) at a time, with
the messages it sends to other tasks collected as an output list.
Senders (`mpsc::Sender`, `oneshot::Sender`) are identified by `Nat`
ids; `BasicProperties` is opaque.  A `panic!`, `unwrap` or `expect`
failure, and the `todo!`/`unreachable!` arms, are modelled by the
`panic` result. -/

/-- The `Deliver` method payload; only the consumer tag is read by the
dispatcher. -/
structure DeliverT where
  consumerTag : String
  deriving Repr, DecidableEq

/-- `BasicProperties`, opaque to the dispatcher. -/
abbrev BasicProperties := Nat

/-- Content-body bytes. -/
abbrev Body := List Nat

/-- `ConsumerMessage { deliver, basic_properties, content }`. -/
structure ConsumerMessage where
  deliver : Option DeliverT
  basic_properties : Option BasicProperties
  content : Option Body
  deriving Repr, DecidableEq

/-- `ConsumerResource { fifo, tx }` (dispatcher.rs lines 24-56). -/
structure ConsumerResource where
  fifo : List ConsumerMessage
  tx : Option Nat
  deriving Repr, DecidableEq

/-- A fresh `ConsumerResource::new()`. -/
def ConsumerResource.new : ConsumerResource := ⟨[], none⟩

/-- An AMQP method header `(class-id, method-id)`. -/
abbrev MethodHeader := Nat × Nat

/-- The dispatcher's `State` enum (dispatcher.rs lines 58-64). -/
inductive State where
  | Initial
  | Deliver
  | GetOk
  | GetEmpty
  | Return
  deriving Repr, DecidableEq

/-- Inbound frames the dispatcher handles.  The eighteen synchronous
`…Ok` method frames that share one arm (dispatcher.rs lines 266-284)
are collapsed into `syncReply` carrying the method header; the special
`CloseChannelOk` / `CloseChannel` frames and the four `todo!` frames
keep their own constructors. -/
inductive InFrame where
  | ret (replyCode : Nat)
  | getEmpty
  | getOk
  | deliver (m : DeliverT)
  | contentHeader (props : BasicProperties)
  | contentBody (body : Body)
  | closeChannelOk (hdr : MethodHeader)
  | syncReply (hdr : MethodHeader)
  | closeChannel (replyCode : Nat) (replyText : String)
  | flow
  | cancel
  | ack
  | nack
  deriving Repr, DecidableEq

/-- `DispatcherManagementCommand` (dispatcher.rs lines 145-174). -/
inductive Command where
  | registerContentConsumer (tag : String) (tx : Nat)
  | unregisterContentConsumer (tag : String)
  | registerGetContentResponder (tx : Nat)
  | registerOneshotResponder (hdr : MethodHeader) (responder : Nat)
  | registerChannelCallback (cb : Nat)
  deriving Repr, DecidableEq

/-- One event consumed by the dispatcher's `select!` loop: a management
command or an inbound frame. -/
inductive Event where
  | cmd (c : Command)
  | frame (f : InFrame)
  deriving Repr, DecidableEq

/-- Observable effects of one loop iteration: a message sent to a
consumer sink (with the tag it was looked up under), a frame forwarded
to the basic-get responder or to a oneshot RPC responder, the
`close-ok` frame pushed to the connection writer, the channel callback
invocation, or the debug log when a synchronous reply has no
responder. -/
inductive Output where
  | toConsumer (tag : String) (tx : Nat) (msg : ConsumerMessage)
  | toGetResponder (tx : Nat) (f : InFrame)
  | toOneshot (responder : Nat) (f : InFrame)
  | writerCloseOk
  | callbackClose (cb : Nat) (replyCode : Nat) (replyText : String)
  | logNoResponder (hdr : MethodHeader)
  deriving Repr, DecidableEq

/-- The dispatcher's mutable state (`ChannelDispatcher` fields plus the
`message_buffer` local of `spawn` and the channel's open flag). -/
structure Dispatcher where
  consumers : List (String × ConsumerResource)
  get_content_responder : Option Nat
  responders : List (MethodHeader × Nat)
  callback : Option Nat
  state : State
  message_buffer : ConsumerMessage
  channelOpen : Bool
  deriving Repr, DecidableEq

/-- `ChannelDispatcher::new` plus the initial `message_buffer` of
`spawn`: empty maps, no responders or callback, state `Initial`, empty
buffer, channel open. -/
def Dispatcher.init : Dispatcher :=
  { consumers := []
    get_content_responder := none
    responders := []
    callback := none
    state := .Initial
    message_buffer := ⟨none, none, none⟩
    channelOpen := true }

/-- Result of one loop iteration: continue with a new state (`ok`),
leave the loop (`exit`, the `break` statements), or `panic` (an
`unwrap`/`expect` failure or a `todo!`/`unreachable!` arm).  Each
carries the outputs emitted before the iteration ended. -/
inductive StepResult where
  | ok (st : Dispatcher) (out : List Output)
  | exit (st : Dispatcher) (out : List Output)
  | panic (out : List Output)
  deriving Repr, DecidableEq

/-- One iteration of the dispatcher loop (dispatcher.rs lines 134-335),
transcribed arm by arm. -/
def step (st : Dispatcher) : Event → StepResult
  | .cmd (.registerContentConsumer tag tx) =>
    -- get_or_new_consumer, register_tx, then drain the fifo into the
    -- freshly registered tx before processing anything else
    let c := (lookupA st.consumers tag).getD ConsumerResource.new
    .ok { st with consumers := insertA st.consumers tag ⟨[], some tx⟩ }
      (c.fifo.map (fun m => .toConsumer tag tx m))
  | .cmd (.unregisterContentConsumer tag) =>
    .ok { st with consumers := removeA st.consumers tag } []
  | .cmd (.registerGetContentResponder tx) =>
    .ok { st with get_content_responder := some tx } []
  | .cmd (.registerOneshotResponder hdr r) =>
    -- HashMap::insert replaces any previous binding of hdr
    .ok { st with responders := insertA st.responders hdr r } []
  | .cmd (.registerChannelCallback cb) =>
    .ok { st with callback := some cb } []
  | .frame (.ret _) =>
    .ok { st with state := .Return } []
  | .frame .getEmpty =>
    match st.get_content_responder with
    | none => .panic []  -- .take().expect("Get responder must be registered")
    | some tx =>
      .ok { st with state := .GetEmpty, get_content_responder := none }
        [.toGetResponder tx .getEmpty]
  | .frame .getOk =>
    match st.get_content_responder with
    | none => .panic []  -- .as_ref().expect("Get responder must be registered")
    | some tx => .ok { st with state := .GetOk } [.toGetResponder tx .getOk]
  | .frame (.deliver m) =>
    .ok { st with state := .Deliver
                  message_buffer := { st.message_buffer with deliver := some m } } []
  | .frame (.contentHeader props) =>
    match st.state with
    | .Deliver =>
      .ok { st with message_buffer :=
              { st.message_buffer with basic_properties := some props } } []
    | .GetOk =>
      match st.get_content_responder with
      | none => .panic []
      | some tx => .ok st [.toGetResponder tx (.contentHeader props)]
    | .Return => .panic []  -- todo!("handle Return content")
    | .Initial => .panic []  -- unreachable!("invalid dispatcher state")
    | .GetEmpty => .panic []
  | .frame (.contentBody body) =>
    match st.state with
    | .Deliver =>
      -- message_buffer.content = Some(body.inner); then the buffered
      -- deliver method is unwrapped to obtain the consumer tag
      match st.message_buffer.deliver with
      | none => .panic []  -- deliver.as_ref().unwrap()
      | some dl =>
        let msg : ConsumerMessage :=
          ⟨some dl, st.message_buffer.basic_properties, some body⟩
        let c := (lookupA st.consumers dl.consumerTag).getD ConsumerResource.new
        match c.tx with
        | some tx =>
          .ok { st with message_buffer := ⟨none, none, none⟩
                        consumers := insertA st.consumers dl.consumerTag c }
            [.toConsumer dl.consumerTag tx msg]
        | none =>
          .ok { st with message_buffer := ⟨none, none, none⟩
                        consumers := insertA st.consumers dl.consumerTag
                          { c with fifo := c.fifo ++ [msg] } } []
    | .GetOk =>
      match st.get_content_responder with
      | none => .panic []
      | some tx =>
        .ok { st with get_content_responder := none }
          [.toGetResponder tx (.contentBody body)]
    | .Return => .panic []  -- todo!("handle Return content")
    | .Initial => .panic []
    | .GetEmpty => .panic []
  | .frame (.closeChannelOk hdr) =>
    match lookupA st.responders hdr with
    | none => .panic []  -- .expect("CloseChannelOk responder must be registered")
    | some r =>
      .exit { st with responders := removeA st.responders hdr, channelOpen := false }
        [.toOneshot r (.closeChannelOk hdr)]
  | .frame (.syncReply hdr) =>
    match lookupA st.responders hdr with
    | some r =>
      .ok { st with responders := removeA st.responders hdr }
        [.toOneshot r (.syncReply hdr)]
    | none => .ok st [.logNoResponder hdr]
  | .frame (.closeChannel replyCode replyText) =>
    .exit { st with channelOpen := false }
      (Output.writerCloseOk ::
        (match st.callback with
         | some cb => [Output.callbackClose cb replyCode replyText]
         | none => []))
  | .frame .flow => .panic []    -- todo!("handle asynchronous request")
  | .frame .cancel => .panic []
  | .frame .ack => .panic []
  | .frame .nack => .panic []

/-- Run the dispatcher loop on a list of events, accumulating outputs;
`exit` and `panic` stop the loop, discarding the remaining events
exactly as `break` and a panic do. -/
def run (st : Dispatcher) : List Event → StepResult
  | [] => .ok st []
  | e :: rest =>
    match step st e with
    | .ok st1 out =>
      match run st1 rest with
      | .ok st2 out2 => .ok st2 (out ++ out2)
      | .exit st2 out2 => .exit st2 (out ++ out2)
      | .panic out2 => .panic (out ++ out2)
    | .exit st1 out => .exit st1 out
    | .panic out => .panic out

/-! ## Traces for the consumer-ordering claim

A broker-level trace interleaves consumer registrations with complete
deliveries (a `Deliver` method frame followed by its content header and
a single content-body frame, which is the shape the dispatcher handles
without panicking). -/

/-- One broker-level event: a consumer registration command or a
complete delivery for a tag. -/
inductive BrokerEvent where
  | reg (tag : String) (tx : Nat)
  | del (tag : String) (props : BasicProperties) (body : Body)
  deriving Repr, DecidableEq

/-- Expansion of a broker-level trace into the dispatcher's events. -/
def brokerEvents : List BrokerEvent → List Event
  | [] => []
  | .reg tag tx :: rest => .cmd (.registerContentConsumer tag tx) :: brokerEvents rest
  | .del tag p b :: rest =>
    .frame (.deliver ⟨tag⟩) :: .frame (.contentHeader p) ::
      .frame (.contentBody b) :: brokerEvents rest

/-- The messages a broker-level trace delivers for a tag, in broker
order. -/
def deliveredFor (tag : String) : List BrokerEvent → List ConsumerMessage
  | [] => []
  | .reg _ _ :: rest => deliveredFor tag rest
  | .del t p b :: rest =>
    if t = tag then ⟨some ⟨t⟩, some p, some b⟩ :: deliveredFor tag rest
    else deliveredFor tag rest

/-- The messages sent to consumer sinks for a tag, in output order. -/
def sinkMsgs (tag : String) : List Output → List ConsumerMessage
  | [] => []
  | o :: rest =>
    match o with
    | .toConsumer t _ m => if t = tag then m :: sinkMsgs tag rest else sinkMsgs tag rest
    | _ => sinkMsgs tag rest

/-- The FIFO buffered for a tag in a dispatcher state. -/
def pending (st : Dispatcher) (tag : String) : List ConsumerMessage :=
  ((lookupA st.consumers tag).getD ConsumerResource.new).fifo

/-- Whether a sink is registered for a tag in a dispatcher state. -/
def hasTx (st : Dispatcher) (tag : String) : Bool :=
  ((lookupA st.consumers tag).getD ConsumerResource.new).tx.isSome

/-- Invariant maintained by the dispatcher: a consumer with a registered
sink has an empty FIFO (registration drains the FIFO, and deliveries
with a sink present bypass it). -/
def txEmpty (st : Dispatcher) : Prop :=
  ∀ tag, hasTx st tag = true → pending st tag = []

/-- Prefix a step result's output list. -/
def StepResult.prepend (out : List Output) : StepResult → StepResult
  | .ok st o => .ok st (out ++ o)
  | .exit st o => .exit st (out ++ o)
  | .panic o => .panic (out ++ o)

/-! ## Helper lemmas -/

theorem lookupA_insertA_self {κ α : Type} [DecidableEq κ]
    (l : List (κ × α)) (k : κ) (v : α) : lookupA (insertA l k v) k = some v := by
  induction l with
  | nil => simp [insertA, lookupA]
  | cons hd tl ih =>
    obtain ⟨k0, v0⟩ := hd
    by_cases h : k0 = k
    · simp [insertA, lookupA, h]
    · simp [insertA, lookupA, h, ih]

theorem lookupA_insertA_ne {κ α : Type} [DecidableEq κ]
    (l : List (κ × α)) (k : κ) (v : α) (k' : κ) (h : k' ≠ k) :
    lookupA (insertA l k v) k' = lookupA l k' := by
  induction l with
  | nil =>
    have hk : ¬(k = k') := fun hh => h hh.symm
    simp [insertA, lookupA, hk]
  | cons hd tl ih =>
    obtain ⟨k0, v0⟩ := hd
    by_cases h0 : k0 = k
    · subst h0
      have hk : ¬(k0 = k') := fun hh => h hh.symm
      simp [insertA, lookupA, hk]
    · simp [insertA, lookupA, h0, ih]

theorem sinkMsgs_append (tag : String) (o1 o2 : List Output) :
    sinkMsgs tag (o1 ++ o2) = sinkMsgs tag o1 ++ sinkMsgs tag o2 := by
  induction o1 with
  | nil => simp [sinkMsgs]
  | cons hd tl ih =>
    cases hd <;> simp [sinkMsgs, ih]
    case toConsumer t tx m =>
      by_cases h : t = tag <;> simp [h]

theorem sinkMsgs_map_self (tag : String) (tx : Nat) (fifo : List ConsumerMessage) :
    sinkMsgs tag (fifo.map fun m => Output.toConsumer tag tx m) = fifo := by
  induction fifo with
  | nil => simp [sinkMsgs]
  | cons hd tl ih => simp [sinkMsgs, ih]

theorem sinkMsgs_map_ne (tag t : String) (tx : Nat) (fifo : List ConsumerMessage)
    (h : t ≠ tag) :
    sinkMsgs tag (fifo.map fun m => Output.toConsumer t tx m) = [] := by
  induction fifo with
  | nil => simp [sinkMsgs]
  | cons hd tl ih => simp [sinkMsgs, h, ih]

theorem run_cons_ok (st st1 : Dispatcher) (e : Event) (out : List Output)
    (rest : List Event) (h : step st e = .ok st1 out) :
    run st (e :: rest) = (run st1 rest).prepend out := by
  simp only [run, h]
  cases run st1 rest <;> rfl

theorem arrayBytes_aux (l : List FieldValue) (n : Nat) :
    l.foldl (fun acc v => acc + tagSize + v.len) n
      = n + (l.map fun v => tagSize + v.len).sum := by
  induction l generalizing n with
  | nil => simp
  | cons hd tl ih => simp [List.foldl_cons, ih]; omega

theorem arrayBytes_eq_formula (values : List FieldValue) :
    arrayBytes values = arrayPayloadFormula values := by
  simpa [arrayBytes, arrayPayloadFormula] using arrayBytes_aux values 0

theorem bytesOfMap_eq_formula (t : FieldTable) :
    bytesOfMap t = tablePayloadFormula t := by
  induction t with
  | nil => rfl
  | cons hd tl ih =>
    obtain ⟨k, v⟩ := hd
    simp [bytesOfMap, tablePayloadFormula, tagSize] at *
    omega

theorem StepResult.prepend_nil (r : StepResult) : r.prepend [] = r := by
  cases r <;> rfl

/-- A registration command drains the tag's FIFO into the new sink, in
arrival order, within the same loop iteration. -/
theorem run_reg (st : Dispatcher) (tag : String) (tx : Nat) (evs : List Event) :
    run st (.cmd (.registerContentConsumer tag tx) :: evs)
      = (run { st with consumers := insertA st.consumers tag ⟨[], some tx⟩ } evs).prepend
          (((lookupA st.consumers tag).getD ConsumerResource.new).fifo.map
            (fun m => .toConsumer tag tx m)) :=
  run_cons_ok _ _ _ _ _ rfl

/-- The dispatcher state after a complete delivery: state register left
at `Deliver`, message buffer cleared, consumer map updated. -/
def afterDel (st : Dispatcher) (cs : List (String × ConsumerResource)) : Dispatcher :=
  { st with state := .Deliver, message_buffer := ⟨none, none, none⟩, consumers := cs }

/-- The dispatcher state after a `Deliver` method frame. -/
def afterDeliver (st : Dispatcher) (tag : String) : Dispatcher :=
  { st with state := .Deliver
            message_buffer := { st.message_buffer with deliver := some ⟨tag⟩ } }

/-- The dispatcher state after a `ContentHeader` frame in state
`Deliver`. -/
def afterHeader (st : Dispatcher) (p : BasicProperties) : Dispatcher :=
  { st with message_buffer := { st.message_buffer with basic_properties := some p } }

/-- A complete delivery for a tag with no consumer resource yet: the
message is buffered in a fresh FIFO. -/
theorem run_del_absent (st : Dispatcher) (tag : String) (p : BasicProperties)
    (b : Body) (evs : List Event) (hc : lookupA st.consumers tag = none) :
    run st (.frame (.deliver ⟨tag⟩) :: .frame (.contentHeader p) ::
        .frame (.contentBody b) :: evs)
      = run (afterDel st (insertA st.consumers tag
          ⟨[⟨some ⟨tag⟩, some p, some b⟩], none⟩)) evs := by
  have h1 : step st (.frame (.deliver ⟨tag⟩)) = .ok (afterDeliver st tag) [] := rfl
  have h2 : step (afterDeliver st tag) (.frame (.contentHeader p))
      = .ok (afterHeader (afterDeliver st tag) p) [] := rfl
  have h3 : step (afterHeader (afterDeliver st tag) p) (.frame (.contentBody b))
      = .ok (afterDel st (insertA st.consumers tag
          ⟨[⟨some ⟨tag⟩, some p, some b⟩], none⟩)) [] := by
    simp [step, afterDeliver, afterHeader, afterDel, hc, ConsumerResource.new]
  rw [run_cons_ok _ _ _ _ _ h1, StepResult.prepend_nil,
    run_cons_ok _ _ _ _ _ h2, StepResult.prepend_nil,
    run_cons_ok _ _ _ _ _ h3, StepResult.prepend_nil]

/-- A complete delivery for a tag whose resource has no sink: the
message is appended to the tag's FIFO. -/
theorem run_del_buffer (st : Dispatcher) (tag : String) (p : BasicProperties)
    (b : Body) (evs : List Event) (r : ConsumerResource)
    (hc : lookupA st.consumers tag = some r) (htx : r.tx = none) :
    run st (.frame (.deliver ⟨tag⟩) :: .frame (.contentHeader p) ::
        .frame (.contentBody b) :: evs)
      = run (afterDel st (insertA st.consumers tag
          { r with fifo := r.fifo ++ [⟨some ⟨tag⟩, some p, some b⟩] })) evs := by
  have h1 : step st (.frame (.deliver ⟨tag⟩)) = .ok (afterDeliver st tag) [] := rfl
  have h2 : step (afterDeliver st tag) (.frame (.contentHeader p))
      = .ok (afterHeader (afterDeliver st tag) p) [] := rfl
  have h3 : step (afterHeader (afterDeliver st tag) p) (.frame (.contentBody b))
      = .ok (afterDel st (insertA st.consumers tag
          { r with fifo := r.fifo ++ [⟨some ⟨tag⟩, some p, some b⟩] })) [] := by
    simp [step, afterDeliver, afterHeader, afterDel, hc, htx]
  rw [run_cons_ok _ _ _ _ _ h1, StepResult.prepend_nil,
    run_cons_ok _ _ _ _ _ h2, StepResult.prepend_nil,
    run_cons_ok _ _ _ _ _ h3, StepResult.prepend_nil]

/-- A complete delivery for a tag whose resource has a registered sink:
the message is sent to the sink within the same loop iteration. -/
theorem run_del_send (st : Dispatcher) (tag : String) (p : BasicProperties)
    (b : Body) (evs : List Event) (r : ConsumerResource) (tx : Nat)
    (hc : lookupA st.consumers tag = some r) (htx : r.tx = some tx) :
    run st (.frame (.deliver ⟨tag⟩) :: .frame (.contentHeader p) ::
        .frame (.contentBody b) :: evs)
      = (run (afterDel st (insertA st.consumers tag r)) evs).prepend
          [.toConsumer tag tx ⟨some ⟨tag⟩, some p, some b⟩] := by
  have h1 : step st (.frame (.deliver ⟨tag⟩)) = .ok (afterDeliver st tag) [] := rfl
  have h2 : step (afterDeliver st tag) (.frame (.contentHeader p))
      = .ok (afterHeader (afterDeliver st tag) p) [] := rfl
  have h3 : step (afterHeader (afterDeliver st tag) p) (.frame (.contentBody b))
      = .ok (afterDel st (insertA st.consumers tag r))
          [.toConsumer tag tx ⟨some ⟨tag⟩, some p, some b⟩] := by
    simp [step, afterDeliver, afterHeader, afterDel, hc, htx]
  rw [run_cons_ok _ _ _ _ _ h1, StepResult.prepend_nil,
    run_cons_ok _ _ _ _ _ h2, StepResult.prepend_nil,
    run_cons_ok _ _ _ _ _ h3]

/-- Main invariant lemma for consumer routing.  Running a broker-level
trace from any state satisfying the sink-implies-empty-FIFO invariant
never panics or exits; the invariant is preserved; for every tag, the
messages sent to sinks followed by the messages still buffered are
exactly the initially buffered messages followed by the trace's
deliveries, in order; and a tag with a sink (initially, or registered by
the trace) still has one at the end. -/
theorem run_broker (ms : List BrokerEvent) :
    ∀ st : Dispatcher, txEmpty st →
      ∃ st2 out, run st (brokerEvents ms) = .ok st2 out ∧ txEmpty st2 ∧
        (∀ tag, sinkMsgs tag out ++ pending st2 tag
            = pending st tag ++ deliveredFor tag ms) ∧
        (∀ tag, (hasTx st tag = true ∨ ∃ tx, BrokerEvent.reg tag tx ∈ ms) →
            hasTx st2 tag = true) := by
  induction ms with
  | nil =>
    intro st hW
    refine ⟨st, [], rfl, hW, fun tag => by simp [sinkMsgs, deliveredFor], ?_⟩
    intro tag h
    rcases h with h | ⟨tx, hmem⟩
    · exact h
    · simp [brokerEvents] at hmem
  | cons ev rest ih =>
    intro st hW
    cases ev with
    | reg tag0 tx0 =>
      have hW1 : txEmpty { st with consumers := insertA st.consumers tag0 ⟨[], some tx0⟩ } := by
        intro tag htx
        by_cases h : tag = tag0
        · subst h
          simp [pending, lookupA_insertA_self]
        · have hne := lookupA_insertA_ne st.consumers tag0 ⟨[], some tx0⟩ tag h
          have hprev : hasTx st tag = true := by simpa [hasTx, hne] using htx
          simpa [pending, hne] using hW tag hprev
      obtain ⟨st2, out2, hrun2, hW2, heq2, htx2⟩ :=
        ih { st with consumers := insertA st.consumers tag0 ⟨[], some tx0⟩ } hW1
      refine ⟨st2, (pending st tag0).map (fun m => .toConsumer tag0 tx0 m) ++ out2,
        ?_, hW2, ?_, ?_⟩
      · rw [show brokerEvents (.reg tag0 tx0 :: rest)
              = .cmd (.registerContentConsumer tag0 tx0) :: brokerEvents rest from rfl,
          run_reg, hrun2]
        rfl
      · intro tag
        by_cases h : tag = tag0
        · subst h
          rw [sinkMsgs_append, sinkMsgs_map_self]
          have hp1 : pending { st with consumers := insertA st.consumers tag ⟨[], some tx0⟩ } tag
              = [] := by simp [pending, lookupA_insertA_self]
          have hrest := heq2 tag
          rw [hp1] at hrest
          simp only [List.nil_append] at hrest
          rw [List.append_assoc, hrest]
          rfl
        · have hne := lookupA_insertA_ne st.consumers tag0 ⟨[], some tx0⟩ tag h
          rw [sinkMsgs_append, sinkMsgs_map_ne tag tag0 tx0 _ (fun hh => h hh.symm)]
          have hp1 : pending { st with consumers := insertA st.consumers tag0 ⟨[], some tx0⟩ } tag
              = pending st tag := by simp [pending, hne]
          have hrest := heq2 tag
          rw [hp1] at hrest
          simpa [deliveredFor] using hrest
      · intro tag h
        by_cases htag : tag = tag0
        · subst htag
          exact htx2 tag (Or.inl (by simp [hasTx, lookupA_insertA_self]))
        · have hne := lookupA_insertA_ne st.consumers tag0 ⟨[], some tx0⟩ tag htag
          apply htx2
          rcases h with h | ⟨tx, hmem⟩
          · exact Or.inl (by simpa [hasTx, hne] using h)
          · rcases List.mem_cons.mp hmem with heq | hmem2
            · injection heq with h1 h2
              exact absurd h1 htag
            · exact Or.inr ⟨tx, hmem2⟩
    | del tag0 p0 b0 =>
      have hexp : brokerEvents (.del tag0 p0 b0 :: rest)
          = .frame (.deliver ⟨tag0⟩) :: .frame (.contentHeader p0) ::
            .frame (.contentBody b0) :: brokerEvents rest := rfl
      cases hc : lookupA st.consumers tag0 with
      | none =>
        have hW1 : txEmpty (afterDel st (insertA st.consumers tag0
            ⟨[⟨some ⟨tag0⟩, some p0, some b0⟩], none⟩)) := by
          intro tag htx
          by_cases h : tag = tag0
          · subst h
            simp [hasTx, afterDel, lookupA_insertA_self] at htx
          · have hne := lookupA_insertA_ne st.consumers tag0
              ⟨[⟨some ⟨tag0⟩, some p0, some b0⟩], none⟩ tag h
            have hprev : hasTx st tag = true := by simpa [hasTx, afterDel, hne] using htx
            simpa [pending, afterDel, hne] using hW tag hprev
        obtain ⟨st2, out2, hrun2, hW2, heq2, htx2⟩ := ih _ hW1
        refine ⟨st2, out2, ?_, hW2, ?_, ?_⟩
        · rw [hexp, run_del_absent st tag0 p0 b0 _ hc, hrun2]
        · intro tag
          by_cases h : tag = tag0
          · subst h
            have hp1 : pending (afterDel st (insertA st.consumers tag
                ⟨[⟨some ⟨tag⟩, some p0, some b0⟩], none⟩)) tag
                = [⟨some ⟨tag⟩, some p0, some b0⟩] := by
              simp [pending, afterDel, lookupA_insertA_self]
            have hrest := heq2 tag
            rw [hp1] at hrest
            have hp0 : pending st tag = [] := by simp [pending, hc, ConsumerResource.new]
            rw [hp0]
            simpa [deliveredFor] using hrest
          · have hne := lookupA_insertA_ne st.consumers tag0
              ⟨[⟨some ⟨tag0⟩, some p0, some b0⟩], none⟩ tag h
            have hp1 : pending (afterDel st (insertA st.consumers tag0
                ⟨[⟨some ⟨tag0⟩, some p0, some b0⟩], none⟩)) tag = pending st tag := by
              simp [pending, afterDel, hne]
            have hne0 : ¬(tag0 = tag) := fun hh => h hh.symm
            have hrest := heq2 tag
            rw [hp1] at hrest
            simpa [deliveredFor, hne0] using hrest
        · intro tag h
          by_cases htag : tag = tag0
          · subst htag
            apply htx2
            rcases h with h | ⟨tx, hmem⟩
            · simp [hasTx, hc, ConsumerResource.new] at h
            · rcases List.mem_cons.mp hmem with heq | hmem2
              · cases heq
              · exact Or.inr ⟨tx, hmem2⟩
          · have hne := lookupA_insertA_ne st.consumers tag0
              ⟨[⟨some ⟨tag0⟩, some p0, some b0⟩], none⟩ tag htag
            apply htx2
            rcases h with h | ⟨tx, hmem⟩
            · exact Or.inl (by simpa [hasTx, afterDel, hne] using h)
            · rcases List.mem_cons.mp hmem with heq | hmem2
              · cases heq
              · exact Or.inr ⟨tx, hmem2⟩
      | some r =>
        cases htx : r.tx with
        | none =>
          have hW1 : txEmpty (afterDel st (insertA st.consumers tag0
              { r with fifo := r.fifo ++ [⟨some ⟨tag0⟩, some p0, some b0⟩] })) := by
            intro tag htxh
            by_cases h : tag = tag0
            · subst h
              simp [hasTx, afterDel, lookupA_insertA_self, htx] at htxh
            · have hne := lookupA_insertA_ne st.consumers tag0
                { r with fifo := r.fifo ++ [⟨some ⟨tag0⟩, some p0, some b0⟩] } tag h
              have hprev : hasTx st tag = true := by
                simpa [hasTx, afterDel, hne] using htxh
              simpa [pending, afterDel, hne] using hW tag hprev
          obtain ⟨st2, out2, hrun2, hW2, heq2, htx2⟩ := ih _ hW1
          refine ⟨st2, out2, ?_, hW2, ?_, ?_⟩
          · rw [hexp, run_del_buffer st tag0 p0 b0 _ r hc htx, hrun2]
          · intro tag
            by_cases h : tag = tag0
            · subst h
              have hp1 : pending (afterDel st (insertA st.consumers tag
                  { r with fifo := r.fifo ++ [⟨some ⟨tag⟩, some p0, some b0⟩] })) tag
                  = r.fifo ++ [⟨some ⟨tag⟩, some p0, some b0⟩] := by
                simp [pending, afterDel, lookupA_insertA_self]
              have hrest := heq2 tag
              rw [hp1] at hrest
              have hp0 : pending st tag = r.fifo := by simp [pending, hc]
              rw [hp0]
              rw [List.append_assoc] at hrest
              simpa [deliveredFor] using hrest
            · have hne := lookupA_insertA_ne st.consumers tag0
                { r with fifo := r.fifo ++ [⟨some ⟨tag0⟩, some p0, some b0⟩] } tag h
              have hp1 : pending (afterDel st (insertA st.consumers tag0
                  { r with fifo := r.fifo ++ [⟨some ⟨tag0⟩, some p0, some b0⟩] })) tag
                  = pending st tag := by simp [pending, afterDel, hne]
              have hne0 : ¬(tag0 = tag) := fun hh => h hh.symm
              have hrest := heq2 tag
              rw [hp1] at hrest
              simpa [deliveredFor, hne0] using hrest
          · intro tag h
            by_cases htag : tag = tag0
            · subst htag
              apply htx2
              rcases h with h | ⟨tx, hmem⟩
              · simp [hasTx, hc, htx] at h
              · rcases List.mem_cons.mp hmem with heq | hmem2
                · cases heq
                · exact Or.inr ⟨tx, hmem2⟩
            · have hne := lookupA_insertA_ne st.consumers tag0
                { r with fifo := r.fifo ++ [⟨some ⟨tag0⟩, some p0, some b0⟩] } tag htag
              apply htx2
              rcases h with h | ⟨tx, hmem⟩
              · exact Or.inl (by simpa [hasTx, afterDel, hne] using h)
              · rcases List.mem_cons.mp hmem with heq | hmem2
                · cases heq
                · exact Or.inr ⟨tx, hmem2⟩
        | some tx =>
          have hfifo : r.fifo = [] := by
            have hT : hasTx st tag0 = true := by simp [hasTx, hc, htx]
            simpa [pending, hc] using hW tag0 hT
          have hW1 : txEmpty (afterDel st (insertA st.consumers tag0 r)) := by
            intro tag htxh
            by_cases h : tag = tag0
            · subst h
              simp [pending, afterDel, lookupA_insertA_self, hfifo]
            · have hne := lookupA_insertA_ne st.consumers tag0 r tag h
              have hprev : hasTx st tag = true := by
                simpa [hasTx, afterDel, hne] using htxh
              simpa [pending, afterDel, hne] using hW tag hprev
          obtain ⟨st2, out2, hrun2, hW2, heq2, htx2⟩ := ih _ hW1
          refine ⟨st2, .toConsumer tag0 tx ⟨some ⟨tag0⟩, some p0, some b0⟩ :: out2,
            ?_, hW2, ?_, ?_⟩
          · rw [hexp, run_del_send st tag0 p0 b0 _ r tx hc htx, hrun2]
            rfl
          · intro tag
            by_cases h : tag = tag0
            · subst h
              have hp1 : pending (afterDel st (insertA st.consumers tag r)) tag
                  = r.fifo := by simp [pending, afterDel, lookupA_insertA_self]
              have hrest := heq2 tag
              rw [hp1, hfifo] at hrest
              simp only [List.nil_append] at hrest
              have hp0 : pending st tag = r.fifo := by simp [pending, hc]
              rw [hp0, hfifo]
              simp [sinkMsgs, deliveredFor, hrest]
            · have hne := lookupA_insertA_ne st.consumers tag0 r tag h
              have hp1 : pending (afterDel st (insertA st.consumers tag0 r)) tag
                  = pending st tag := by simp [pending, afterDel, hne]
              have hne0 : ¬(tag0 = tag) := fun hh => h hh.symm
              have hrest := heq2 tag
              rw [hp1] at hrest
              have hs : sinkMsgs tag
                  (Output.toConsumer tag0 tx ⟨some ⟨tag0⟩, some p0, some b0⟩ :: out2)
                  = sinkMsgs tag out2 := by
                simp [sinkMsgs, hne0]
              rw [hs]
              simpa [deliveredFor, hne0] using hrest
          · intro tag h
            by_cases htag : tag = tag0
            · subst htag
              exact htx2 tag (Or.inl (by simp [hasTx, afterDel, lookupA_insertA_self, htx]))
            · have hne := lookupA_insertA_ne st.consumers tag0 r tag htag
              apply htx2
              rcases h with h | ⟨tx2, hmem⟩
              · exact Or.inl (by simpa [hasTx, afterDel, hne] using h)
              · rcases List.mem_cons.mp hmem with heq | hmem2
                · cases heq
                · exact Or.inr ⟨tx2, hmem2⟩

/-! ## Claim theorems -/

/-- C1.  The claim says a `ContentBody` frame in state `Deliver` is
appended to the assembly buffer and the message is emitted only when the
accumulated byte count equals the declared body size, so that a body
split across several `ContentBody` frames is reassembled into one
message.  The code instead overwrites the buffer's content with the
frame's bytes and emits immediately, never consulting the declared body
size and never returning the state register to `Initial`: on a two-frame
body, the consumer receives a message containing only the first chunk
after the first `ContentBody` frame, and the dispatcher panics
(`deliver.as_ref().unwrap()` on an already-taken buffer) on the second
frame. -/
theorem split_body_divergence :
    run Dispatcher.init
      [ .cmd (.registerContentConsumer "T1" 7),
        .frame (.deliver ⟨"T1"⟩),
        .frame (.contentHeader 0),
        .frame (.contentBody [170]),
        .frame (.contentBody [187]) ]
      = .panic [.toConsumer "T1" 7 ⟨some ⟨"T1"⟩, some 0, some [170]⟩] := by
  decide

/-- C2.  For every `FieldValue`, the implemented encoded-size function
`FieldValue::len` agrees with the specification's per-tag size table on
every variant except `F`: for a nested field table the code returns
`TAG_SIZE (1) +` the table's byte count where the spec requires `4 +`
the table's byte count (the `u32` length prefix the wire format
carries).  Witnessed on the empty nested table: the code computes `1`,
the spec requires `4`. -/
theorem fieldValue_len_nested_table_diverges :
    FieldValue.len (.F []) = 1 ∧ encodedSizeSpec (.F []) = 4 ∧
      ∀ v : FieldValue, (∀ t : FieldTable, v ≠ .F t) → v.len = encodedSizeSpec v := by
  refine ⟨rfl, rfl, ?_⟩
  intro v hv
  cases v with
  | F t => exact absurd rfl (hv t)
  | _ => rfl

/-- Witness for C2's universal part at the scalar tag `t`. -/
theorem fieldValue_len_nested_table_diverges_witness :
    FieldValue.len (.t true) = encodedSizeSpec (.t true) :=
  fieldValue_len_nested_table_diverges.2.2 (.t true) (fun t h => by cases h)

/-- C3 counterexample.  With a waiter already registered for reply
header `(20, 41)`, registering a second waiter for the same header does
not fail with `RpcInFlight`: the step succeeds and the second waiter
silently replaces the first. -/
theorem rpc_second_registration_succeeds :
    step { Dispatcher.init with responders := [((20, 41), 1)] }
        (.cmd (.registerOneshotResponder (20, 41) 2))
      = .ok { Dispatcher.init with responders := [((20, 41), 2)] } [] := by
  decide

/-- C3 amended.  Registering a waiter for an expected reply header
always succeeds (`HashMap::insert` followed by an acknowledgement to the
caller); when a waiter is already registered under the same header, the
new waiter silently replaces it and no error is reported. -/
theorem rpc_registration_silently_replaces (st : Dispatcher) (hdr : MethodHeader)
    (r : Nat) :
    step st (.cmd (.registerOneshotResponder hdr r))
        = .ok { st with responders := insertA st.responders hdr r } [] ∧
      lookupA (insertA st.responders hdr r) hdr = some r :=
  ⟨rfl, lookupA_insertA_self st.responders hdr r⟩

/-- C5.  On a server-initiated `channel.close` frame, from any state the
dispatcher marks the channel closed, sends exactly one `close-ok` frame
to the connection writer, then invokes the registered channel callback
(if any), and exits the loop: all remaining events are discarded, so no
consumer delivery or frame ever follows the `close-ok`. -/
theorem close_channel_marks_closed_and_exits (st : Dispatcher) (evs : List Event)
    (replyCode : Nat) (replyText : String) :
    run st (.frame (.closeChannel replyCode replyText) :: evs)
      = .exit { st with channelOpen := false }
          (Output.writerCloseOk ::
            (match st.callback with
             | some cb => [Output.callbackClose cb replyCode replyText]
             | none => [])) := by
  rfl

/-- C6 counterexample.  A `CloseChannelOk` frame arriving with no waiter
registered does not make the dispatcher log, drop and continue: the
`expect` on the missing responder panics the dispatcher task. -/
theorem close_channel_ok_no_waiter_panics :
    step Dispatcher.init (.frame (.closeChannelOk (20, 41))) = .panic [] := by
  decide

/-- C6 amended.  For every inbound synchronous reply frame other than
`CloseChannelOk`: if a waiter is registered under the frame's method
header the dispatcher removes that entry and delivers the frame to it,
and if no waiter is registered it logs, drops the frame and continues
running.  For `CloseChannelOk` the dispatcher requires a registered
waiter — it panics when there is none — and after delivering the frame
it marks the channel closed and terminates. -/
theorem sync_reply_dispatch (st : Dispatcher) (hdr : MethodHeader) (r : Nat) :
    (lookupA st.responders hdr = some r →
       step st (.frame (.syncReply hdr))
         = .ok { st with responders := removeA st.responders hdr }
             [.toOneshot r (.syncReply hdr)]) ∧
    (lookupA st.responders hdr = none →
       step st (.frame (.syncReply hdr)) = .ok st [.logNoResponder hdr]) ∧
    (lookupA st.responders hdr = some r →
       step st (.frame (.closeChannelOk hdr))
         = .exit { st with responders := removeA st.responders hdr,
                           channelOpen := false }
             [.toOneshot r (.closeChannelOk hdr)]) ∧
    (lookupA st.responders hdr = none →
       step st (.frame (.closeChannelOk hdr)) = .panic []) := by
  refine ⟨?_, ?_, ?_, ?_⟩ <;> intro h <;> simp [step, h]

/-- Witness for C6's amended theorem: with no waiter registered, a
`DeclareOk`-style reply under header `(60, 80)` is logged and dropped
while the dispatcher keeps running, and a `CloseChannelOk` panics. -/
theorem sync_reply_dispatch_witness :
    lookupA Dispatcher.init.responders (60, 80) = none ∧
      step Dispatcher.init (.frame (.syncReply (60, 80)))
        = .ok Dispatcher.init [.logNoResponder (60, 80)] ∧
      step Dispatcher.init (.frame (.closeChannelOk (60, 80))) = .panic [] :=
  ⟨rfl, (sync_reply_dispatch Dispatcher.init (60, 80) 0).2.1 rfl,
    (sync_reply_dispatch Dispatcher.init (60, 80) 0).2.2.2 rfl⟩

/-- C7.  `ShortStr` construction from a string succeeds exactly when the
UTF-8 byte length is at most 255, storing that length; any longer input
fails with the short-string overflow error. -/
theorem short_str_try_from_iff (s : List Nat) :
    (s.length ≤ 255 → ShortStrT.tryFrom s = .ok ⟨s.length, s⟩) ∧
    (255 < s.length → ShortStrT.tryFrom s = .error .shortStringOverflow) ∧
    ((∃ r, ShortStrT.tryFrom s = .ok r) ↔ s.length ≤ 255) := by
  refine ⟨?_, ?_, ?_, ?_⟩
  · intro h; simp [ShortStrT.tryFrom, octectMax, h]
  · intro h; simp [ShortStrT.tryFrom, octectMax, Nat.not_le.mpr h]
  · rintro ⟨r, hr⟩
    by_contra hlen
    simp [ShortStrT.tryFrom, octectMax, hlen] at hr
  · intro h; exact ⟨⟨s.length, s⟩, by simp [ShortStrT.tryFrom, octectMax, h]⟩

/-- Witness for C7: a 256-byte string overflows, a 255-byte string is
accepted with stored length 255. -/
theorem short_str_try_from_iff_witness :
    ShortStrT.tryFrom (List.replicate 256 0) = .error .shortStringOverflow ∧
      ShortStrT.tryFrom (List.replicate 255 0)
        = .ok ⟨(List.replicate 255 (0 : Nat)).length, List.replicate 255 0⟩ :=
  ⟨(short_str_try_from_iff (List.replicate 256 0)).2.1
      (by rw [List.length_replicate]; omega),
    (short_str_try_from_iff (List.replicate 255 0)).1
      (by rw [List.length_replicate])⟩

/-- C8.  When the serialized size fits in `u32`: `FieldArray`
construction records as its `u32` length prefix exactly the sum over
elements of `TAG_SIZE (1) + encoded_size(value)`, and the byte count a
`FieldTable` announces (checked at construction, computed again at
serialization by `len_in_bytes`) is exactly the sum over entries of
`1 + name_len + 1 + encoded_size(value)`. -/
theorem length_prefix_equals_payload_formula (values : List FieldValue)
    (t : FieldTable) :
    (arrayBytes values ≤ longUintMax →
       FieldArrayT.tryFrom values = .ok ⟨arrayPayloadFormula values, values⟩) ∧
    (bytesOfMap t ≤ longUintMax →
       FieldTable.tryFrom t = .ok t ∧
         FieldTable.len_in_bytes t = some (tablePayloadFormula t)) := by
  constructor
  · intro h
    have h2 : arrayPayloadFormula values ≤ longUintMax :=
      arrayBytes_eq_formula values ▸ h
    simp [FieldArrayT.tryFrom, arrayBytes_eq_formula, h2]
  · intro h
    have h2 : tablePayloadFormula t ≤ longUintMax :=
      bytesOfMap_eq_formula t ▸ h
    refine ⟨by simp [FieldTable.tryFrom, bytesOfMap_eq_formula, h2], ?_⟩
    simp [FieldTable.len_in_bytes, bytesOfMap_eq_formula, Nat.not_lt.mpr h2]

/-- Witness for C8 on a one-element array and a one-entry table. -/
theorem length_prefix_equals_payload_formula_witness :
    FieldArrayT.tryFrom [.t true]
        = .ok ⟨arrayPayloadFormula [.t true], [.t true]⟩ ∧
      FieldTable.tryFrom [(⟨1, [97]⟩, .t true)] = .ok [(⟨1, [97]⟩, .t true)] ∧
      FieldTable.len_in_bytes [(⟨1, [97]⟩, .t true)]
        = some (tablePayloadFormula [(⟨1, [97]⟩, .t true)]) :=
  ⟨(length_prefix_equals_payload_formula [.t true] []).1 (by decide),
    ((length_prefix_equals_payload_formula [] [(⟨1, [97]⟩, .t true)]).2
      (by decide)).1,
    ((length_prefix_equals_payload_formula [] [(⟨1, [97]⟩, .t true)]).2
      (by decide)).2⟩

/-- C9.  `FieldTable::try_from` rejects a map whose serialized length
exceeds `u32::MAX`, but `len_in_bytes` — which is re-run on the table's
current (freely mutable through `as_mut`) contents at serialization
time — panics instead of returning a `TableLengthOverflow` error when
the table has grown past `u32::MAX` bytes. -/
theorem table_overflow_panics (t : FieldTable) :
    bytesOfMap t > longUintMax →
      FieldTable.len_in_bytes t = none ∧
        FieldTable.tryFrom t = .error .tableLengthOverflow := by
  intro h
  constructor
  · simp [FieldTable.len_in_bytes, h]
  · simp [FieldTable.tryFrom, Nat.not_le.mpr h]

/-- Witness for C9: a single entry holding a `LongStr` whose recorded
length is `u32::MAX` pushes the table's byte count to `2^32 + 5`, past
`u32::MAX`; on it `len_in_bytes` panics and `try_from` errors. -/
theorem table_overflow_panics_witness :
    FieldTable.len_in_bytes [(⟨0, []⟩, .S longUintMax [])] = none ∧
      FieldTable.tryFrom [(⟨0, []⟩, .S longUintMax [])]
        = .error .tableLengthOverflow :=
  table_overflow_panics [(⟨0, []⟩, .S longUintMax [])] (by decide)

/-- C10.  The `Flow`, `Cancel`, `Ack` and `Nack` method frames hit the
`todo!("handle asynchronous request")` arm from any dispatcher state,
and a `ContentHeader` or `ContentBody` frame arriving in state `Return`
hits `todo!("handle Return content")`: all panic the dispatcher task
rather than handling the frame or reporting a recoverable error. -/
theorem todo_frames_panic (st : Dispatcher) (p : BasicProperties) (b : Body) :
    step st (.frame .flow) = .panic [] ∧
    step st (.frame .cancel) = .panic [] ∧
    step st (.frame .ack) = .panic [] ∧
    step st (.frame .nack) = .panic [] ∧
    (st.state = .Return →
      step st (.frame (.contentHeader p)) = .panic [] ∧
        step st (.frame (.contentBody b)) = .panic []) := by
  refine ⟨rfl, rfl, rfl, rfl, ?_⟩
  intro h
  obtain ⟨c, g, r, cb, s, mb, op⟩ := st
  simp only at h
  subst h
  exact ⟨rfl, rfl⟩

/-- Witness for C10 in the `Return` state. -/
theorem todo_frames_panic_witness :
    step { Dispatcher.init with state := .Return } (.frame (.contentHeader 0))
        = .panic [] ∧
      step { Dispatcher.init with state := .Return } (.frame (.contentBody []))
        = .panic [] :=
  (todo_frames_panic { Dispatcher.init with state := .Return } 0 []).2.2.2.2 rfl

/-- C4.  For every broker-level trace (registrations interleaved with
complete deliveries) and every consumer tag: messages delivered before a
sink is registered are buffered; at all times the messages already sent
to sinks for the tag, followed by the messages still buffered, equal the
broker's delivery order for that tag; and once a sink has been
registered for the tag (its FIFO having been drained into the sink, in
arrival order, within the registration's own loop iteration, before any
further inbound frame is processed), the overall sequence of messages
sent to sinks equals the broker's delivery order exactly. -/
theorem consumer_order_preserved (ms : List BrokerEvent) (tag : String) :
    ∃ st2 out, run Dispatcher.init (brokerEvents ms) = .ok st2 out ∧
      sinkMsgs tag out ++ pending st2 tag = deliveredFor tag ms ∧
      ((∃ tx, BrokerEvent.reg tag tx ∈ ms) →
        sinkMsgs tag out = deliveredFor tag ms) := by
  have hW : txEmpty Dispatcher.init := by
    intro t ht
    simp [hasTx, Dispatcher.init, lookupA, ConsumerResource.new] at ht
  obtain ⟨st2, out, hrun, hW2, heq, htxp⟩ := run_broker ms Dispatcher.init hW
  have hbase : sinkMsgs tag out ++ pending st2 tag = deliveredFor tag ms := by
    have := heq tag
    simpa [pending, Dispatcher.init, lookupA, ConsumerResource.new] using this
  refine ⟨st2, out, hrun, hbase, ?_⟩
  intro hmem
  have hp : pending st2 tag = [] := hW2 tag (htxp tag (Or.inr hmem))
  simpa [hp] using hbase

/-- Witness for C4 on the spec's consumer-race scenario: a delivery
arrives before the registration command, a second one after; the sink
receives both messages in broker order. -/
theorem consumer_order_preserved_witness :
    ∃ st2 out,
      run Dispatcher.init (brokerEvents
          [.del "T1" 5 [1], .reg "T1" 9, .del "T1" 6 [2]]) = .ok st2 out ∧
        sinkMsgs "T1" out
          = deliveredFor "T1" [.del "T1" 5 [1], .reg "T1" 9, .del "T1" 6 [2]] := by
  obtain ⟨st2, out, hrun, hbase, hfull⟩ :=
    consumer_order_preserved [.del "T1" 5 [1], .reg "T1" 9, .del "T1" 6 [2]] "T1"
  exact ⟨st2, out, hrun, hfull ⟨9, by simp⟩⟩

end Amqprs
